import Mathlib

/-!
# Verification of the go-dnsproxy core (blacklist, cache, proxy lookup)

Shallow embedding of the query-resolution pipeline of the `go-dnsproxy`
repository: the blacklist matcher (`internal/dns/blacklist.go`, plus the
hosts-file bulk loader), the TTL cache (`internal/dns/cache.go`) and the
proxy lookup with round-robin / fallback upstream selection
(`internal/dns/proxy.go`).

Modelling conventions:
* Go strings are byte sequences; we model them as `List Nat` (one `Nat`
  per byte).  The repository only ever manipulates ASCII domain text, so
  `strings.ToLower` / `strings.TrimSpace` are modelled by their ASCII
  behaviour (`toLowerByte`, `isSpaceByte`).
* Go maps used as sets (`map[string]bool`) are modelled as duplicate-free
  lists built with `List.insert`; the only iteration over such a map in
  the modelled code is an existential scan (`IsBlocked`), which is
  order-independent.
* Wall-clock time is an explicit `Nat` parameter `now`; `time.Since ts`
  becomes `now - ts` (truncated subtraction).
* Mutation of a receiver is modelled by returning the updated value next
  to the Go function's result.
* The one effectful leaf, `lookupWithServer` (a network round trip), is a
  parameter `resolve : GoString → DNSServer → Except E (List GoString)`;
  everything above it in `proxy.go` is embedded faithfully.
* The round-robin cursor is a `uint32`; its increment is taken modulo
  `2 ^ 32`.
-/

/-- A Go string, as its byte sequence. -/
abbrev GoString := List Nat

/-- Convert a Lean string literal of ASCII text to its byte sequence,
for writing concrete inputs. -/
def goStr (s : String) : GoString := s.toList.map Char.toNat

/-- ASCII model of the whitespace class used by `strings.TrimSpace`:
`\t \n \v \f \r` and space. -/
def isSpaceByte (b : Nat) : Bool :=
  decide (b = 9 ∨ b = 10 ∨ b = 11 ∨ b = 12 ∨ b = 13 ∨ b = 32)

/-- ASCII model of `strings.ToLower` on one byte: map `A`–`Z` to `a`–`z`. -/
def toLowerByte (b : Nat) : Nat :=
  if 65 ≤ b ∧ b ≤ 90 then b + 32 else b

/-- `strings.TrimSpace`: drop leading and trailing whitespace. -/
def goTrimSpace (s : GoString) : GoString :=
  ((s.dropWhile isSpaceByte).reverse.dropWhile isSpaceByte).reverse

/-- `strings.ToLower`, bytewise on ASCII text. -/
def goToLower (s : GoString) : GoString := s.map toLowerByte

/-- The normalization applied by the blacklist:
`strings.ToLower (strings.TrimSpace domain)`. -/
def goNormalize (s : GoString) : GoString := goToLower (goTrimSpace s)

/-- `blacklist.go`: the two rule sets of a `Blacklist`
(`domains map[string]bool`, `wildcards map[string]bool`). -/
structure Blacklist where
  domains : List GoString
  wildcards : List GoString
  deriving Repr, DecidableEq

/-- `NewBlacklist`: both sets empty. -/
def NewBlacklist : Blacklist := { domains := [], wildcards := [] }

/-- Errors returned by `Blacklist.AddDomain` / `RemoveDomain`. -/
inductive BlacklistError where
  | domainCannotBeEmpty
  | invalidWildcardDomain (domain : GoString)
  deriving Repr, DecidableEq

/-- `Blacklist.AddDomain`: reject the empty string, normalize
(trim + lowercase), and store either a wildcard suffix (input starting
with `*.`, byte `42` then `46`) or an exact domain.  Returns the error
(if any) together with the updated blacklist. -/
def Blacklist.AddDomain (b : Blacklist) (domain : GoString) :
    Option BlacklistError × Blacklist :=
  if domain = [] then (some .domainCannotBeEmpty, b)
  else
    let d := goNormalize domain
    match d with
    | 42 :: 46 :: sfx =>
      if sfx = [] then (some (.invalidWildcardDomain d), b)
      else (none, { b with wildcards := b.wildcards.insert sfx })
    | _ => (none, { b with domains := b.domains.insert d })

/-- `Blacklist.IsBlocked`: empty input is never blocked; otherwise
normalize and test the exact set, then every wildcard suffix `sfx` via
`strings.HasSuffix(domain, "." + sfx) || domain == sfx` (byte `46` is
`.`). -/
def Blacklist.IsBlocked (b : Blacklist) (domain : GoString) : Bool :=
  if domain = [] then false
  else
    let d := goNormalize domain
    decide (d ∈ b.domains) ||
      b.wildcards.any (fun sfx => decide ((46 :: sfx) <:+ d) || decide (d = sfx))

/-- "0.0.0.0", the IPv4 sinkhole constant of `proxy.go`. -/
def sinkholeIPv4 : GoString := [48, 46, 48, 46, 48, 46, 48]

/-- "::", the IPv6 sinkhole constant of `proxy.go`. -/
def sinkholeIPv6 : GoString := [58, 58]

/-- `cache.go`: a `CacheEntry` is the stored address list plus the
`time.Now()` timestamp taken by `Set`. -/
structure CacheEntry where
  IPs : List GoString
  Timestamp : Nat
  deriving Repr, DecidableEq

/-- `cache.go`: the entry map and the fixed TTL (the cleanup goroutine
and its stop channel are outside the per-query semantics modelled
here). -/
structure Cache where
  entries : List (GoString × CacheEntry)
  ttl : Nat
  deriving Repr, DecidableEq

/-- `NewCache`: empty entry map with the given TTL. -/
def NewCache (ttl : Nat) : Cache := { entries := [], ttl := ttl }

/-- `Cache.Get`: `nil` if the key is absent or
`time.Since(entry.Timestamp) > ttl`; the stored list otherwise.
`none` models a `nil` slice, `some []` a non-nil empty slice. -/
def Cache.Get (c : Cache) (domain : GoString) (now : Nat) :
    Option (List GoString) :=
  match c.entries.find? (fun e => e.1 == domain) with
  | none => none
  | some e => if now - e.2.Timestamp > c.ttl then none else some e.2.IPs

/-- `Cache.Set`: unconditionally overwrite the entry for `domain` with
the given list and a fresh timestamp. -/
def Cache.Set (c : Cache) (domain : GoString) (ips : List GoString)
    (now : Nat) : Cache :=
  { c with
    entries := (domain, ⟨ips, now⟩) :: c.entries.filter (fun e => !(e.1 == domain)) }

/-- `server.go` / `proxy.go`: an upstream DNS server as seen by the
proxy — the `DNSServer` interface exposes `GetName` and `GetAddress`. -/
structure DNSServer where
  name : GoString
  address : GoString
  deriving Repr, DecidableEq

/-- `proxy.go`: proxy state.  `registry` stands for the snapshot that
`registry.GetAllServers()` returns; `serverIndex` is the shared `uint32`
round-robin cursor; the query timeout only parametrises the effectful
`lookupWithServer` and is omitted. -/
structure Proxy where
  registry : List DNSServer
  blacklist : Blacklist
  cache : Option Cache
  serverIndex : Nat
  useRoundRobin : Bool
  deriving Repr, DecidableEq

/-- `NewProxy`: no cache, fallback mode. -/
def NewProxy (registry : List DNSServer) (blacklist : Blacklist) : Proxy :=
  { registry := registry, blacklist := blacklist, cache := none,
    serverIndex := 0, useRoundRobin := false }

/-- `NewProxyWithCache`: cache attached, round-robin mode. -/
def NewProxyWithCache (registry : List DNSServer) (blacklist : Blacklist)
    (cache : Cache) : Proxy :=
  { registry := registry, blacklist := blacklist, cache := some cache,
    serverIndex := 0, useRoundRobin := true }

/-- `Proxy.SetRoundRobin`: toggle the mode flag, leaving everything else
(including the cache) alone. -/
def Proxy.SetRoundRobin (p : Proxy) (enabled : Bool) : Proxy :=
  { p with useRoundRobin := enabled }

/-- Errors produced by `Proxy.Lookup` and its helpers, mirroring the
`fmt.Errorf` sites in `proxy.go`.  `allServersFailed` wraps the `lastErr`
of the attempt loop (`nil` only when the loop body never ran). -/
inductive ProxyError (E : Type) where
  | domainCannotBeEmpty
  | noDNSServersConfigured
  | noServersAvailable
  | allServersFailed (last : Option E)
  deriving Repr, DecidableEq

/-- The shared attempt loop of `lookupRoundRobin` / `lookupFallback`:
try each server of `order` in turn, return the first successful result,
remember the most recent error, and report `allServersFailed lastErr`
when the list is exhausted. -/
def tryServersFrom {E : Type} (attempt : DNSServer → Except E (List GoString)) :
    List DNSServer → Option E → Except (ProxyError E) (List GoString)
  | [], lastErr => .error (.allServersFailed lastErr)
  | server :: rest, _ =>
    match attempt server with
    | .ok ips => .ok ips
    | .error e => tryServersFrom attempt rest (some e)

/-- The index sequence of the round-robin loop:
`(index + i) % len(servers)` for `i = 0, …, len(servers) - 1`. -/
def rrIndices (count index : Nat) : List Nat :=
  (List.range count).map (fun i => (index + i) % count)

/-- The servers in the order the round-robin loop visits them. -/
def rrOrder (servers : List DNSServer) (index : Nat) : List DNSServer :=
  (rrIndices servers.length index).filterMap (fun j => servers[j]?)

/-- `Proxy.lookupRoundRobin`: advance the shared `uint32` cursor
atomically, start at `newCursor % len(servers)`, and run the attempt
loop over the rotated order.  Returns the result together with the
proxy whose cursor has advanced. -/
def Proxy.lookupRoundRobin {E : Type}
    (p : Proxy) (resolve : GoString → DNSServer → Except E (List GoString))
    (domain : GoString) (servers : List DNSServer) :
    Except (ProxyError E) (List GoString) × Proxy :=
  if servers.length = 0 then (.error .noServersAvailable, p)
  else
    let newCursor := (p.serverIndex + 1) % 4294967296
    let index := newCursor % servers.length
    (tryServersFrom (resolve domain) (rrOrder servers index) none,
      { p with serverIndex := newCursor })

/-- `Proxy.lookupFallback`: the attempt loop in registry iteration
order; no proxy state is touched. -/
def Proxy.lookupFallback {E : Type}
    (resolve : GoString → DNSServer → Except E (List GoString))
    (domain : GoString) (servers : List DNSServer) :
    Except (ProxyError E) (List GoString) :=
  tryServersFrom (resolve domain) servers none

/-- The cache probe inside `Lookup`:
`if p.cache != nil { if cached := p.cache.Get(domain); cached != nil { … } }`. -/
def Proxy.cacheLookup (p : Proxy) (domain : GoString) (now : Nat) :
    Option (List GoString) :=
  match p.cache with
  | some c => c.Get domain now
  | none => none

/-- `Proxy.Lookup`: reject the empty domain; answer blocked domains with
the sinkhole pair as a success; serve live cache entries; fail when the
registry snapshot is empty; otherwise run the mode-selected attempt
loop, and on a non-empty successful result store it in the cache under
the queried key. -/
def Proxy.Lookup {E : Type}
    (p : Proxy) (resolve : GoString → DNSServer → Except E (List GoString))
    (domain : GoString) (now : Nat) :
    Except (ProxyError E) (List GoString) × Proxy :=
  if domain = [] then (.error .domainCannotBeEmpty, p)
  else if p.blacklist.IsBlocked domain then (.ok [sinkholeIPv4, sinkholeIPv6], p)
  else match p.cacheLookup domain now with
  | some cached => (.ok cached, p)
  | none =>
    let servers := p.registry
    if servers.length = 0 then (.error .noDNSServersConfigured, p)
    else
      let resPair :=
        if p.useRoundRobin then p.lookupRoundRobin resolve domain servers
        else (Proxy.lookupFallback resolve domain servers, p)
      match resPair with
      | (.error e, p1) => (.error e, p1)
      | (.ok ips, p1) =>
        match p1.cache with
        | some c =>
          if ips.length > 0 then
            (.ok ips, { p1 with cache := some (c.Set domain ips now) })
          else (.ok ips, p1)
        | none => (.ok ips, p1)

/-- `strings.Fields`: split around runs of whitespace, no empty fields.
`acc` holds the bytes of the current field in reverse. -/
def goFieldsAux : GoString → GoString → List GoString
  | [], acc => if acc = [] then [] else [acc.reverse]
  | c :: rest, acc =>
    if isSpaceByte c then
      if acc = [] then goFieldsAux rest []
      else acc.reverse :: goFieldsAux rest []
    else goFieldsAux rest (c :: acc)

/-- `strings.Fields(s)`. -/
def goFields (s : GoString) : List GoString := goFieldsAux s []

/-- `strings.Split(s, "\n")` (byte `10`), keeping empty pieces. -/
def goSplitNewline : GoString → List GoString
  | [] => [[]]
  | 10 :: rest => [] :: goSplitNewline rest
  | c :: rest =>
    match goSplitNewline rest with
    | [] => [[c]]
    | l :: ls => (c :: l) :: ls

/-- `parseHostsLine`: trim; drop blank lines, comment lines (leading
`#`, byte `35`) and lines with fewer than two fields; take the second
field; drop it unless it contains a dot (byte `46`); `[]` models the
empty-string "skip" result. -/
def parseHostsLine (line : GoString) : GoString :=
  let l := goTrimSpace line
  match l with
  | [] => []
  | 35 :: _ => []
  | _ =>
    match goFields l with
    | _ :: domain :: _ => if domain.contains 46 then domain else []
    | _ => []

/-- The line loop of `LoadFromHostsContent`: skip lines whose parse is
empty, feed the rest to `AddDomain`, count only the successful adds, and
keep going on `AddDomain` errors. -/
def loadHostsLines (b : Blacklist) : List GoString → Nat × Blacklist
  | [] => (0, b)
  | line :: rest =>
    let domain := parseHostsLine line
    if domain = [] then loadHostsLines b rest
    else
      match b.AddDomain domain with
      | (some _, b1) => loadHostsLines b1 rest
      | (none, b1) =>
        let r := loadHostsLines b1 rest
        (r.1 + 1, r.2)

/-- `Blacklist.LoadFromHostsContent`: split on newlines and run the line
loop (the Go function's error result is always `nil`). -/
def Blacklist.LoadFromHostsContent (b : Blacklist) (content : GoString) :
    Nat × Blacklist :=
  loadHostsLines b (goSplitNewline content)

/-! ## Helper lemmas about the string model -/

theorem length_dropWhile_le' (p : Nat → Bool) (l : GoString) :
    (l.dropWhile p).length ≤ l.length :=
  (List.dropWhile_sublist p).length_le

theorem dropWhile_length_eq {p : Nat → Bool} :
    ∀ {l : GoString}, (l.dropWhile p).length = l.length → l.dropWhile p = l
  | [], _ => rfl
  | c :: t, h => by
    by_cases hc : p c
    · exfalso
      rw [List.dropWhile_cons, if_pos hc] at h
      have := length_dropWhile_le' p t
      simp only [List.length_cons] at h
      omega
    · rw [List.dropWhile_cons, if_neg (by simp [hc])]

theorem dropWhile_eq_self_of_head {p : Nat → Bool} {l : GoString}
    (h : ∀ c, l.head? = some c → p c = false) : l.dropWhile p = l := by
  cases l with
  | nil => rfl
  | cons a t =>
    rw [List.dropWhile_cons, if_neg]
    simp [h a rfl]

theorem head_false_of_dropWhile_eq {p : Nat → Bool} {l : GoString}
    (h : l.dropWhile p = l) : ∀ c, l.head? = some c → p c = false := by
  intro c hc
  cases l with
  | nil => simp at hc
  | cons a t =>
    simp only [List.head?_cons, Option.some.injEq] at hc
    cases hpc : p a with
    | false => rw [← hc]; exact hpc
    | true =>
      exfalso
      rw [List.dropWhile_cons, if_pos hpc] at h
      have h1 := congrArg List.length h
      have h2 := length_dropWhile_le' p t
      simp only [List.length_cons] at h1
      omega

theorem goTrimSpace_eq_self {s : GoString}
    (h1 : ∀ c, s.head? = some c → isSpaceByte c = false)
    (h2 : ∀ c, s.reverse.head? = some c → isSpaceByte c = false) :
    goTrimSpace s = s := by
  unfold goTrimSpace
  rw [dropWhile_eq_self_of_head h1, dropWhile_eq_self_of_head h2,
    List.reverse_reverse]

theorem goTrimSpace_fix {s : GoString} (h : goTrimSpace s = s) :
    s.dropWhile isSpaceByte = s ∧
      s.reverse.dropWhile isSpaceByte = s.reverse := by
  have h' := h
  unfold goTrimSpace at h'
  have hlen :
      ((s.dropWhile isSpaceByte).reverse.dropWhile isSpaceByte).length
        = s.length := by
    have := congrArg List.length h'
    simpa using this
  have hu := length_dropWhile_le' isSpaceByte s
  have hv :=
    length_dropWhile_le' isSpaceByte (s.dropWhile isSpaceByte).reverse
  rw [List.length_reverse] at hv
  have hu_eq : s.dropWhile isSpaceByte = s := dropWhile_length_eq (by omega)
  refine ⟨hu_eq, ?_⟩
  rw [hu_eq] at hlen
  exact dropWhile_length_eq (by rw [List.length_reverse]; exact hlen)

theorem toLowerByte_idem (b : Nat) :
    toLowerByte (toLowerByte b) = toLowerByte b := by
  simp only [toLowerByte]
  split_ifs <;> omega

theorem isSpaceByte_toLowerByte (b : Nat) :
    isSpaceByte (toLowerByte b) = isSpaceByte b := by
  simp only [toLowerByte, isSpaceByte]
  split_ifs with h
  · rw [decide_eq_decide]; omega
  · rfl

theorem goToLower_idem (s : GoString) :
    goToLower (goToLower s) = goToLower s := by
  simp only [goToLower, List.map_map]
  congr 1
  funext b
  exact toLowerByte_idem b

theorem goTrimSpace_goToLower (s : GoString) :
    goTrimSpace (goToLower s) = goToLower (goTrimSpace s) := by
  have hps : (isSpaceByte ∘ toLowerByte) = isSpaceByte := by
    funext b; exact isSpaceByte_toLowerByte b
  simp only [goTrimSpace, goToLower, ← List.map_reverse, List.dropWhile_map,
    hps]

theorem goNormalize_goToLower (s : GoString) :
    goNormalize (goToLower s) = goNormalize s := by
  simp only [goNormalize, goTrimSpace_goToLower]
  exact goToLower_idem (goTrimSpace s)

theorem goNormalize_eq_self_of {s : GoString}
    (hhead : ∀ c, s.head? = some c → isSpaceByte c = false)
    (hlast : ∀ c, s.reverse.head? = some c → isSpaceByte c = false)
    (hlow : goToLower s = s) : goNormalize s = s := by
  unfold goNormalize
  rw [goTrimSpace_eq_self hhead hlast]
  exact hlow

/-- A string that is fixed by the blacklist normalization has a
non-whitespace head and last byte and is fixed by lowercasing. -/
theorem normal_parts {s : GoString} (hs : goTrimSpace s = s) :
    (∀ c, s.head? = some c → isSpaceByte c = false) ∧
      (∀ c, s.reverse.head? = some c → isSpaceByte c = false) := by
  obtain ⟨h1, h2⟩ := goTrimSpace_fix hs
  exact ⟨head_false_of_dropWhile_eq h1, head_false_of_dropWhile_eq h2⟩

/-- Prepending non-whitespace lowercase-fixed bytes to a normalized
non-empty string keeps it normalized. -/
theorem goNormalize_prepend {s : GoString} (pre : GoString)
    (hs : goTrimSpace s = s) (hl : goToLower s = s) (hne : s ≠ [])
    (hpre : ∀ c, pre.head? = some c → isSpaceByte c = false)
    (hprelow : goToLower pre = pre) :
    goNormalize (pre ++ s) = pre ++ s := by
  obtain ⟨hh, ht⟩ := normal_parts hs
  apply goNormalize_eq_self_of
  · intro c hc
    rw [List.head?_append] at hc
    cases hpc : pre.head? with
    | some a =>
      rw [hpc] at hc
      simp only [Option.or] at hc
      exact hpre c (by rw [hpc, hc])
    | none =>
      rw [hpc] at hc
      simp only [Option.none_or] at hc
      exact hh c hc
  · intro c hc
    rw [List.reverse_append, List.head?_append_of_ne_nil _
      (by simpa [List.reverse_eq_nil_iff] using hne)] at hc
    exact ht c hc
  · simp only [goToLower, List.map_append]
    rw [show List.map toLowerByte pre = pre from hprelow,
      show List.map toLowerByte s = s from hl]

theorem cons_ne_append_singleton {a b : Nat} (h : a ≠ b) :
    ∀ s : GoString, a :: s ≠ s ++ [b] := by
  intro s
  induction s with
  | nil => intro he; exact h (by simpa using he)
  | cons c t ih =>
    intro he
    rw [List.cons_append] at he
    injection he with h1 h2
    exact ih (h1 ▸ h2)

theorem not_dot_suffix_append_x (s : GoString) :
    ¬ (46 :: s) <:+ (s ++ [120]) := by
  rintro ⟨t, ht⟩
  have hlen := congrArg List.length ht
  simp only [List.length_append, List.length_cons, List.length_nil] at hlen
  have ht0 : t = [] := List.length_eq_zero.mp (by omega)
  subst ht0
  rw [List.nil_append] at ht
  exact cons_ne_append_singleton (by decide) s ht

theorem not_dot_suffix_not_pre (s : GoString) :
    ¬ (46 :: s) <:+ (110 :: 111 :: 116 :: s) := by
  rintro ⟨t, ht⟩
  match t, ht with
  | [], ht => simp at ht
  | [x], ht => simp at ht
  | [x, y], ht => simp at ht
  | x :: y :: z :: t, ht =>
    have hlen := congrArg List.length ht
    simp only [List.length_append, List.length_cons] at hlen
    omega

/-- Adding `*.` + `s` to the empty blacklist stores exactly the wildcard
suffix `s`, when `s` is non-empty and normalization-fixed. -/
theorem addDomain_wildcard_normal {s : GoString} (hs : goTrimSpace s = s)
    (hl : goToLower s = s) (hne : s ≠ []) :
    NewBlacklist.AddDomain (42 :: 46 :: s) =
      (none, { domains := [], wildcards := [s] }) := by
  have hnorm : goNormalize ([42, 46] ++ s) = [42, 46] ++ s :=
    goNormalize_prepend [42, 46] hs hl hne (by intro c hc; simp at hc; subst hc; decide)
      (by decide)
  simp only [List.cons_append, List.nil_append] at hnorm
  simp only [Blacklist.AddDomain, hnorm]
  simp [hne, NewBlacklist, List.insert]

/-- Appending non-whitespace lowercase-fixed bytes to a normalized
non-empty string keeps it normalized. -/
theorem goNormalize_append {s : GoString} (post : GoString)
    (hs : goTrimSpace s = s) (hl : goToLower s = s) (hne : s ≠ [])
    (hpost : ∀ c, post.reverse.head? = some c → isSpaceByte c = false)
    (hpostlow : goToLower post = post) (hpostne : post ≠ []) :
    goNormalize (s ++ post) = s ++ post := by
  obtain ⟨hh, ht⟩ := normal_parts hs
  apply goNormalize_eq_self_of
  · intro c hc
    rw [List.head?_append_of_ne_nil _ hne] at hc
    exact hh c hc
  · intro c hc
    rw [List.reverse_append, List.head?_append_of_ne_nil _
      (by simpa [List.reverse_eq_nil_iff] using hpostne)] at hc
    exact hpost c hc
  · simp only [goToLower, List.map_append]
    rw [show List.map toLowerByte s = s from hl,
      show List.map toLowerByte post = post from hpostlow]

theorem goNormalize_of_normal {s : GoString} (hs : goTrimSpace s = s)
    (hl : goToLower s = s) : goNormalize s = s := by
  obtain ⟨hh, ht⟩ := normal_parts hs
  exact goNormalize_eq_self_of hh ht hl

/-- **C2 (amended).** Wildcard matching is suffix-based on label
boundaries for suffixes already in normalized form: for every non-empty
`s` fixed by trimming and lowercasing, after `AddDomain("*." + s)` on a
fresh blacklist the rule is accepted, `IsBlocked(s)`,
`IsBlocked("x." + s)` and `IsBlocked("a.b." + s)` are all true, and
`IsBlocked(s + "x")` and `IsBlocked("not" + s)` are false (bytes:
`*` 42, `.` 46, `x` 120, `a` 97, `b` 98, `not` 110 111 116). -/
theorem wildcard_suffix_label_boundary {s : GoString}
    (hs : goTrimSpace s = s) (hl : goToLower s = s) (hne : s ≠ []) :
    (NewBlacklist.AddDomain (42 :: 46 :: s)).1 = none ∧
    ((NewBlacklist.AddDomain (42 :: 46 :: s)).2).IsBlocked s = true ∧
    ((NewBlacklist.AddDomain (42 :: 46 :: s)).2).IsBlocked
      (120 :: 46 :: s) = true ∧
    ((NewBlacklist.AddDomain (42 :: 46 :: s)).2).IsBlocked
      (97 :: 46 :: 98 :: 46 :: s) = true ∧
    ((NewBlacklist.AddDomain (42 :: 46 :: s)).2).IsBlocked
      (s ++ [120]) = false ∧
    ((NewBlacklist.AddDomain (42 :: 46 :: s)).2).IsBlocked
      (110 :: 111 :: 116 :: s) = false := by
  rw [addDomain_wildcard_normal hs hl hne]
  have hn_s : goNormalize s = s := goNormalize_of_normal hs hl
  have hn_x : goNormalize (120 :: 46 :: s) = 120 :: 46 :: s := by
    have := goNormalize_prepend [120, 46] hs hl hne
      (by intro c hc; simp at hc; subst hc; decide) (by decide)
    simpa using this
  have hn_ab : goNormalize (97 :: 46 :: 98 :: 46 :: s)
      = 97 :: 46 :: 98 :: 46 :: s := by
    have := goNormalize_prepend [97, 46, 98, 46] hs hl hne
      (by intro c hc; simp at hc; subst hc; decide) (by decide)
    simpa using this
  have hn_not : goNormalize (110 :: 111 :: 116 :: s)
      = 110 :: 111 :: 116 :: s := by
    have := goNormalize_prepend [110, 111, 116] hs hl hne
      (by intro c hc; simp at hc; subst hc; decide) (by decide)
    simpa using this
  have hn_sx : goNormalize (s ++ [120]) = s ++ [120] :=
    goNormalize_append [120] hs hl hne
      (by intro c hc; simp at hc; subst hc; decide) (by decide) (by decide)
  have hsfx1 : (46 :: s) <:+ (120 :: 46 :: s) := ⟨[120], rfl⟩
  have hsfx2 : (46 :: s) <:+ (97 :: 46 :: 98 :: 46 :: s) := ⟨[97, 46, 98], rfl⟩
  have hlen1 : (120 :: 46 :: s) ≠ s := by
    intro h; have := congrArg List.length h; simp at this; omega
  have hlen2 : (97 :: 46 :: 98 :: 46 :: s) ≠ s := by
    intro h; have := congrArg List.length h; simp at this; omega
  have hlen3 : (s ++ [120]) ≠ s := by
    intro h; have := congrArg List.length h; simp at this
  have hlen4 : (110 :: 111 :: 116 :: s) ≠ s := by
    intro h; have := congrArg List.length h; simp at this; omega
  have hne_sx : s ++ [120] ≠ [] := by
    intro h; have := congrArg List.length h; simp at this
  refine ⟨rfl, ?_, ?_, ?_, ?_, ?_⟩
  · simp [Blacklist.IsBlocked, hne, hn_s]
  · simp [Blacklist.IsBlocked, hn_x, hsfx1]
  · simp [Blacklist.IsBlocked, hn_ab, hsfx2]
  · simp [Blacklist.IsBlocked, hne_sx, hn_sx, not_dot_suffix_append_x s,
      hlen3]
  · simp [Blacklist.IsBlocked, hn_not, not_dot_suffix_not_pre s, hlen4]

/-- Witness for the amended wildcard claim at `s = "example.com"`. -/
theorem wildcard_suffix_label_boundary_witness :
    (NewBlacklist.AddDomain (42 :: 46 :: goStr "example.com")).1 = none ∧
    ((NewBlacklist.AddDomain (42 :: 46 :: goStr "example.com")).2).IsBlocked
      (goStr "example.com") = true ∧
    ((NewBlacklist.AddDomain (42 :: 46 :: goStr "example.com")).2).IsBlocked
      (120 :: 46 :: goStr "example.com") = true ∧
    ((NewBlacklist.AddDomain (42 :: 46 :: goStr "example.com")).2).IsBlocked
      (97 :: 46 :: 98 :: 46 :: goStr "example.com") = true ∧
    ((NewBlacklist.AddDomain (42 :: 46 :: goStr "example.com")).2).IsBlocked
      (goStr "example.com" ++ [120]) = false ∧
    ((NewBlacklist.AddDomain (42 :: 46 :: goStr "example.com")).2).IsBlocked
      (110 :: 111 :: 116 :: goStr "example.com") = false :=
  wildcard_suffix_label_boundary (by decide) (by decide) (by decide)

/-- **C2 (counterexample).** The claim quantifies over every non-empty
suffix `s`; it fails at `s = " a"` (bytes `[32, 97]`):
`AddDomain("*." + " a")` succeeds and stores the wildcard suffix
`" a"`, yet `IsBlocked(" a")` is false, because `IsBlocked` normalizes
the query (trimming the space) while `AddDomain` kept the leading space
inside the stored suffix. -/
theorem wildcard_claim_counterexample :
    (NewBlacklist.AddDomain ([42, 46] ++ [32, 97])).1 = none ∧
    ((NewBlacklist.AddDomain ([42, 46] ++ [32, 97])).2).IsBlocked [32, 97]
      = false := by decide

/-- **C5 (counterexample).** For the whitespace-only input `" "`
(byte `[32]`), whose normalized form is empty, `AddDomain` does not
fail: the emptiness check runs before normalization, so the call
succeeds and stores the empty string as an exact rule. -/
theorem addDomain_whitespace_counterexample :
    (NewBlacklist.AddDomain [32]).1 = none ∧
    (NewBlacklist.AddDomain [32]).2.domains = [[]] ∧
    (NewBlacklist.AddDomain [32]).2 ≠ NewBlacklist := by decide

/-- **C5 (amended).** `AddDomain` fails (with the `InvalidArgument`-style
errors of `blacklist.go`) exactly when the raw input is the empty string
— the check precedes normalization — or when the normalized form is
exactly the wildcard marker `*.` with empty suffix; on failure both rule
sets are left unchanged.  In particular a whitespace-only input, whose
normalized form is empty, is accepted. -/
theorem addDomain_err_iff (b : Blacklist) (raw : GoString) :
    (b.AddDomain raw).1 ≠ none ↔ (raw = [] ∨ goNormalize raw = [42, 46]) := by
  by_cases hraw : raw = []
  · subst hraw
    simp [Blacklist.AddDomain]
  · simp only [Blacklist.AddDomain, if_neg hraw]
    split
    case _ sfx heq =>
      by_cases hsfx : sfx = []
      · subst hsfx
        simp [heq, hraw]
      · simp [hsfx, heq, hraw]
    case _ hne =>
      simp [hraw]
      intro h
      exact absurd h (by exact fun hh => by simpa using hne [] hh)

theorem addDomain_err_unchanged (b : Blacklist) (raw : GoString) :
    (b.AddDomain raw).1 ≠ none → (b.AddDomain raw).2 = b := by
  by_cases hraw : raw = []
  · subst hraw
    simp [Blacklist.AddDomain]
  · simp only [Blacklist.AddDomain, if_neg hraw]
    split
    case _ sfx heq =>
      by_cases hsfx : sfx = []
      · subst hsfx; simp
      · simp [hsfx]
    case _ hne => simp

theorem addDomain_failure_characterization (b : Blacklist) (raw : GoString) :
    ((b.AddDomain raw).1 ≠ none ↔ (raw = [] ∨ goNormalize raw = [42, 46])) ∧
    ((b.AddDomain raw).1 ≠ none → (b.AddDomain raw).2 = b) :=
  ⟨addDomain_err_iff b raw, addDomain_err_unchanged b raw⟩

/-- **C1.** For every non-empty domain that the blacklist classifies as
blocked, `Lookup` returns the successful result
`["0.0.0.0", "::"]` and leaves the proxy (registry, cache, cursor)
untouched — regardless of cache contents and registry contents, since
the blacklist check precedes both. -/
theorem lookup_blocked_returns_sinkhole {E : Type}
    (resolve : GoString → DNSServer → Except E (List GoString))
    (p : Proxy) (domain : GoString) (now : Nat)
    (h1 : domain ≠ []) (h2 : p.blacklist.IsBlocked domain = true) :
    p.Lookup resolve domain now = (.ok [sinkholeIPv4, sinkholeIPv6], p) := by
  simp [Proxy.Lookup, h1, h2]

/-- Witness for the blocked-domain claim: blacklist containing
`ads.example.com`, an empty registry, and a cache entry for the same
domain mapping it elsewhere; `Lookup` still answers with the sinkhole
pair. -/
theorem lookup_blocked_returns_sinkhole_witness :
    Proxy.Lookup
      { registry := [],
        blacklist := (NewBlacklist.AddDomain (goStr "ads.example.com")).2,
        cache := some
          { entries := [(goStr "ads.example.com", ⟨[goStr "9.9.9.9"], 0⟩)],
            ttl := 100 },
        serverIndex := 0, useRoundRobin := true }
      (fun (_ : GoString) (_ : DNSServer) => Except.error (0 : Nat))
      (goStr "ads.example.com") 0
      = (.ok [sinkholeIPv4, sinkholeIPv6],
        { registry := [],
          blacklist := (NewBlacklist.AddDomain (goStr "ads.example.com")).2,
          cache := some
            { entries := [(goStr "ads.example.com", ⟨[goStr "9.9.9.9"], 0⟩)],
              ttl := 100 },
          serverIndex := 0, useRoundRobin := true }) :=
  lookup_blocked_returns_sinkhole _ _ _ _ (by decide) (by decide)

theorem find?_filter_key_ne (l : List (GoString × CacheEntry))
    (d1 d2 : GoString) (h : d1 ≠ d2) :
    (l.filter (fun e => !(e.1 == d1))).find? (fun e => e.1 == d2)
      = l.find? (fun e => e.1 == d2) := by
  induction l with
  | nil => rfl
  | cons e l ih =>
    by_cases he : e.1 = d1
    · rw [List.filter_cons, if_neg (by simp [he]), List.find?_cons,
        show (e.1 == d2) = false from by simp [he, h]]
      exact ih
    · rw [List.filter_cons, if_pos (by simp [he]), List.find?_cons,
        List.find?_cons]
      cases hd : (e.1 == d2) with
      | true => rfl
      | false => exact ih

/-- **C6.** Cache round-trip and expiry: immediately after
`Set(d, ips)` (more precisely, while `now - t ≤ ttl`), `Get(d)` returns
exactly `ips`; once `now - t` exceeds the TTL it returns the absent
result `none`, which is the same value returned for a key that was
never set. -/
theorem cache_roundtrip_expiry (c : Cache) (d : GoString)
    (ips : List GoString) (t now1 now2 : Nat)
    (h1 : now1 - t ≤ c.ttl) (h2 : c.ttl < now2 - t) :
    (c.Set d ips t).Get d now1 = some ips ∧
    (c.Set d ips t).Get d now2 = none ∧
    (NewCache c.ttl).Get d now2 = none := by
  refine ⟨?_, ?_, rfl⟩
  · simp [Cache.Set, Cache.Get, List.find?_cons]
    omega
  · simp [Cache.Set, Cache.Get, List.find?_cons]
    omega

/-- Witness for the cache round-trip claim at `ttl = 10`, `t = 5`,
`now1 = 15`, `now2 = 16`. -/
theorem cache_roundtrip_expiry_witness :
    ((NewCache 10).Set (goStr "example.com") [goStr "1.2.3.4"] 5).Get
      (goStr "example.com") 15 = some [goStr "1.2.3.4"] ∧
    ((NewCache 10).Set (goStr "example.com") [goStr "1.2.3.4"] 5).Get
      (goStr "example.com") 16 = none ∧
    (NewCache (NewCache 10).ttl).Get (goStr "example.com") 16 = none :=
  cache_roundtrip_expiry (NewCache 10) _ _ 5 15 16 (by decide) (by decide)

/-- **C9.** The cache performs no normalization of its keys: for any two
distinct byte strings `d1 ≠ d2` (e.g. differing only in case or
whitespace), `Set(d1, ips)` leaves `Get(d2)` exactly as it was — it
never makes `Get(d2)` present — even though blacklist matching is
case-insensitive for the very same strings (`IsBlocked` of the
lowercased spelling agrees with `IsBlocked` of the original). -/
theorem cache_exact_key (c : Cache) (d1 d2 : GoString)
    (ips : List GoString) (t now : Nat) (h : d1 ≠ d2) (h2 : d1 ≠ []) :
    (c.Set d1 ips t).Get d2 now = c.Get d2 now ∧
    (∀ bl : Blacklist, bl.IsBlocked (goToLower d1) = bl.IsBlocked d1) := by
  constructor
  · simp only [Cache.Set, Cache.Get, List.find?_cons,
      show ((d1, (⟨ips, t⟩ : CacheEntry)).1 == d2) = false from by simp [h]]
    rw [find?_filter_key_ne c.entries d1 d2 h]
  · intro bl
    have hlow_ne : goToLower d1 ≠ [] := by
      intro hcon
      exact h2 (List.map_eq_nil_iff.mp hcon)
    simp only [Blacklist.IsBlocked, if_neg h2, if_neg hlow_ne,
      goNormalize_goToLower]

/-- Witness for the exact-key cache claim: `d1 = "Example.com"`,
`d2 = "example.com"` — setting the capitalized spelling does not make
the lowercase spelling present. -/
theorem cache_exact_key_witness :
    ((NewCache 10).Set (goStr "Example.com") [goStr "1.2.3.4"] 0).Get
      (goStr "example.com") 0 = (NewCache 10).Get (goStr "example.com") 0 ∧
    (∀ bl : Blacklist,
      bl.IsBlocked (goToLower (goStr "Example.com"))
        = bl.IsBlocked (goStr "Example.com")) :=
  cache_exact_key (NewCache 10) _ _ _ 0 0 (by decide) (by decide)

/-! ## Lemmas about the attempt loop and the round-robin order -/

theorem tryServersFrom_ok_iff {E : Type}
    (attempt : DNSServer → Except E (List GoString)) :
    ∀ (l : List DNSServer) (last : Option E) (r : List GoString),
      tryServersFrom attempt l last = .ok r ↔
        ∃ k, ∃ hk : k < l.length, attempt (l.get ⟨k, hk⟩) = .ok r ∧
          ∀ j, ∀ hj : j < k,
            ∃ e, attempt (l.get ⟨j, Nat.lt_trans hj hk⟩) = .error e := by
  intro l
  induction l with
  | nil =>
    intro last r
    simp [tryServersFrom]
  | cons s rest ih =>
    intro last r
    cases ha : attempt s with
    | ok ips =>
      simp only [tryServersFrom, ha]
      constructor
      · intro h
        injection h with h
        refine ⟨0, Nat.succ_pos _, ?_, ?_⟩
        · rw [show ((s :: rest).get ⟨0, Nat.succ_pos _⟩) = s from rfl, ha, h]
        · intro j hj; omega
      · rintro ⟨k, hk, hgood, hbad⟩
        cases k with
        | zero =>
          rw [show ((s :: rest).get ⟨0, hk⟩) = s from rfl, ha] at hgood
          injection hgood with hgood
          rw [hgood]
        | succ k =>
          obtain ⟨e, he⟩ := hbad 0 (Nat.succ_pos _)
          rw [show ((s :: rest).get ⟨0, _⟩) = s from rfl, ha] at he
          cases he
    | error e =>
      simp only [tryServersFrom, ha]
      rw [ih (some e) r]
      constructor
      · rintro ⟨k, hk, hgood, hbad⟩
        refine ⟨k + 1, Nat.succ_lt_succ hk, hgood, ?_⟩
        intro j hj
        cases j with
        | zero => exact ⟨e, ha⟩
        | succ j => exact hbad j (Nat.lt_of_succ_lt_succ hj)
      · rintro ⟨k, hk, hgood, hbad⟩
        cases k with
        | zero =>
          rw [show ((s :: rest).get ⟨0, hk⟩) = s from rfl, ha] at hgood
          cases hgood
        | succ k =>
          refine ⟨k, Nat.lt_of_succ_lt_succ hk, hgood, ?_⟩
          intro j hj
          exact hbad (j + 1) (Nat.succ_lt_succ hj)

theorem tryServersFrom_all_fail {E : Type}
    (attempt : DNSServer → Except E (List GoString)) :
    ∀ (l : List DNSServer) (last : Option E)
      (_ : ∀ s ∈ l, ∃ e, attempt s = .error e)
      (srv : DNSServer) (e : E),
      l.getLast? = some srv → attempt srv = .error e →
      tryServersFrom attempt l last = .error (.allServersFailed (some e)) := by
  intro l
  induction l with
  | nil => intro last _ srv e hlast; simp at hlast
  | cons a rest ih =>
    intro last hfail srv e hlast herr
    cases rest with
    | nil =>
      simp only [List.getLast?_singleton, Option.some.injEq] at hlast
      subst hlast
      simp [tryServersFrom, herr]
    | cons b t =>
      obtain ⟨ea, hea⟩ := hfail a (List.mem_cons_self a _)
      rw [List.getLast?_cons_cons] at hlast
      simp only [tryServersFrom, hea]
      exact ih (some ea) (fun s hs => hfail s (List.mem_cons_of_mem a hs))
        srv e hlast herr

theorem rrIndices_length (count index : Nat) :
    (rrIndices count index).length = count := by
  simp [rrIndices]

theorem rrIndices_getElem (count index i : Nat)
    (h : i < (rrIndices count index).length) :
    (rrIndices count index)[i] = (index + i) % count := by
  simp [rrIndices]

theorem rrIndices_nodup (count index : Nat) :
    (rrIndices count index).Nodup := by
  apply List.Nodup.map_on _ (List.nodup_range count)
  intro x hx y hy hxy
  rw [List.mem_range] at hx hy
  have hmx : x % count = x := Nat.mod_eq_of_lt hx
  have hmy : y % count = y := Nat.mod_eq_of_lt hy
  have h1 : x ≡ y [MOD count] :=
    Nat.ModEq.add_left_cancel' index hxy
  rw [Nat.ModEq, hmx, hmy] at h1
  exact h1

theorem filterMap_getElem?_eq_map (l : List DNSServer) (idxs : List Nat)
    (d0 : DNSServer) (h : ∀ j ∈ idxs, j < l.length) :
    idxs.filterMap (fun j => l[j]?) = idxs.map (fun j => l.getD j d0) := by
  induction idxs with
  | nil => rfl
  | cons j t ih =>
    have hj : j < l.length := h j (List.mem_cons_self j t)
    rw [List.filterMap_cons, List.map_cons,
      List.getElem?_eq_getElem hj, List.getD_eq_getElem l d0 hj]
    exact congrArg _ (ih (fun i hi => h i (List.mem_cons_of_mem j hi)))

theorem rrOrder_eq_map (servers : List DNSServer) (index : Nat)
    (d0 : DNSServer) (hne : servers ≠ []) :
    rrOrder servers index
      = (rrIndices servers.length index).map (fun j => servers.getD j d0) := by
  apply filterMap_getElem?_eq_map
  intro j hj
  simp only [rrIndices, List.mem_map, List.mem_range] at hj
  obtain ⟨i, _, rfl⟩ := hj
  exact Nat.mod_lt _ (List.length_pos.mpr hne)

theorem rrOrder_length (servers : List DNSServer) (index : Nat)
    (hne : servers ≠ []) :
    (rrOrder servers index).length = servers.length := by
  classical
  obtain ⟨d0, _⟩ := List.exists_mem_of_ne_nil servers hne
  rw [rrOrder_eq_map servers index d0 hne, List.length_map, rrIndices_length]

theorem rrOrder_getElem? (servers : List DNSServer) (index i : Nat)
    (hne : servers ≠ []) (hi : i < servers.length) :
    (rrOrder servers index)[i]? = servers[(index + i) % servers.length]? := by
  classical
  obtain ⟨d0, _⟩ := List.exists_mem_of_ne_nil servers hne
  rw [rrOrder_eq_map servers index d0 hne, List.getElem?_map]
  have hidx : (rrIndices servers.length index)[i]?
      = some ((index + i) % servers.length) := by
    rw [List.getElem?_eq_getElem (by simpa [rrIndices_length] using hi)]
    rw [rrIndices_getElem _ _ _ (by simpa [rrIndices_length] using hi)]
  rw [hidx, Option.map_some',
    List.getD_eq_getElem servers d0 (Nat.mod_lt _ (List.length_pos.mpr hne)),
    List.getElem?_eq_getElem (Nat.mod_lt _ (List.length_pos.mpr hne))]

theorem rrOrder_mem (servers : List DNSServer) (index : Nat)
    (s : DNSServer) (hs : s ∈ rrOrder servers index) : s ∈ servers := by
  simp only [rrOrder, List.mem_filterMap] at hs
  obtain ⟨j, _, hj⟩ := hs
  exact List.getElem?_mem hj

/-- **C3.** In round-robin mode with at least one server, a `Lookup`
that reaches the upstream loop (non-empty domain, not blocked, cache
miss) advances the shared `uint32` cursor by one, starts at
`start = cursor % M`, and attempts the servers in the cyclic order
`start, start+1, …, start+M-1 (mod M)`: the visited index sequence has
no duplicates (each server is attempted at most once), the positions of
the visited order are exactly the cyclic indices, and the loop result is
`ok r` exactly when some server in that order answers `r` and every
server strictly earlier in the order failed — so iteration stops at the
first success and a failed attempt is never retried. -/
theorem roundRobin_cyclic_order {E : Type}
    (resolve : GoString → DNSServer → Except E (List GoString))
    (p : Proxy) (domain : GoString) (now : Nat)
    (hs : p.registry ≠ []) (hrr : p.useRoundRobin = true)
    (h1 : domain ≠ []) (h2 : p.blacklist.IsBlocked domain = false)
    (h3 : p.cacheLookup domain now = none) :
    (p.Lookup resolve domain now).2.serverIndex
      = (p.serverIndex + 1) % 4294967296 ∧
    (p.Lookup resolve domain now).1
      = tryServersFrom (resolve domain)
          (rrOrder p.registry
            ((p.serverIndex + 1) % 4294967296 % p.registry.length)) none ∧
    (rrIndices p.registry.length
      ((p.serverIndex + 1) % 4294967296 % p.registry.length)).Nodup ∧
    (∀ i, i < p.registry.length →
      (rrOrder p.registry
        ((p.serverIndex + 1) % 4294967296 % p.registry.length))[i]?
        = p.registry[((p.serverIndex + 1) % 4294967296 % p.registry.length
            + i) % p.registry.length]?) ∧
    (∀ r, tryServersFrom (resolve domain)
        (rrOrder p.registry
          ((p.serverIndex + 1) % 4294967296 % p.registry.length)) none
        = .ok r ↔
      ∃ k, ∃ hk : k < (rrOrder p.registry
          ((p.serverIndex + 1) % 4294967296 % p.registry.length)).length,
        resolve domain ((rrOrder p.registry
          ((p.serverIndex + 1) % 4294967296 % p.registry.length)).get
            ⟨k, hk⟩) = .ok r ∧
        ∀ j, ∀ hj : j < k,
          ∃ e, resolve domain ((rrOrder p.registry
            ((p.serverIndex + 1) % 4294967296 % p.registry.length)).get
              ⟨j, Nat.lt_trans hj hk⟩) = .error e) := by
  have hM : ¬ p.registry.length = 0 := by
    simpa [List.length_eq_zero] using hs
  have hpair : p.lookupRoundRobin resolve domain p.registry
      = (tryServersFrom (resolve domain)
          (rrOrder p.registry
            ((p.serverIndex + 1) % 4294967296 % p.registry.length)) none,
        { p with serverIndex := (p.serverIndex + 1) % 4294967296 }) := by
    simp only [Proxy.lookupRoundRobin, if_neg hM]
  refine ⟨?_, ?_, rrIndices_nodup _ _,
    fun i hi => rrOrder_getElem? p.registry _ i hs hi,
    fun r => tryServersFrom_ok_iff (resolve domain) _ none r⟩
  · cases htr : tryServersFrom (resolve domain)
        (rrOrder p.registry
          ((p.serverIndex + 1) % 4294967296 % p.registry.length)) none with
    | ok ips =>
      simp only [Proxy.Lookup, if_neg h1, h2, Bool.false_eq_true, if_false,
        h3, if_neg hM, hrr, if_true, hpair, htr]
      cases hc : p.cache with
      | some c =>
        by_cases hlen : ips.length > 0
        · simp [hc, hlen]
        · simp [hc, hlen]
      | none => simp [hc]
    | error e =>
      simp only [Proxy.Lookup, if_neg h1, h2, Bool.false_eq_true, if_false,
        h3, if_neg hM, hrr, if_true, hpair, htr]
  · cases htr : tryServersFrom (resolve domain)
        (rrOrder p.registry
          ((p.serverIndex + 1) % 4294967296 % p.registry.length)) none with
    | ok ips =>
      simp only [Proxy.Lookup, if_neg h1, h2, Bool.false_eq_true, if_false,
        h3, if_neg hM, hrr, if_true, hpair, htr]
      cases hc : p.cache with
      | some c =>
        by_cases hlen : ips.length > 0
        · simp [hc, hlen]
        · simp [hc, hlen]
      | none => simp [hc]
    | error e =>
      simp only [Proxy.Lookup, if_neg h1, h2, Bool.false_eq_true, if_false,
        h3, if_neg hM, hrr, if_true, hpair, htr]

/-- Witness for the round-robin claim: one server, empty blacklist,
empty cache, cursor 0. -/
theorem roundRobin_cyclic_order_witness :
    ((Proxy.Lookup { registry := [⟨[97], [98]⟩], blacklist := NewBlacklist, cache := some (NewCache 10), serverIndex := 0, useRoundRobin := true } (fun (_ : GoString) (_ : DNSServer) => (Except.ok [[49]] : Except Nat (List GoString))) [100] 0).2.serverIndex = (0 + 1) % 4294967296) ∧
    ((Proxy.Lookup { registry := [⟨[97], [98]⟩], blacklist := NewBlacklist, cache := some (NewCache 10), serverIndex := 0, useRoundRobin := true } (fun (_ : GoString) (_ : DNSServer) => (Except.ok [[49]] : Except Nat (List GoString))) [100] 0).1 = tryServersFrom ((fun (_ : GoString) (_ : DNSServer) => (Except.ok [[49]] : Except Nat (List GoString))) [100]) (rrOrder [⟨[97], [98]⟩] ((0 + 1) % 4294967296 % List.length [(⟨[97], [98]⟩ : DNSServer)])) none) ∧
    (rrIndices (List.length [(⟨[97], [98]⟩ : DNSServer)]) ((0 + 1) % 4294967296 % List.length [(⟨[97], [98]⟩ : DNSServer)])).Nodup ∧
    (∀ i, i < List.length [(⟨[97], [98]⟩ : DNSServer)] →
      (rrOrder [⟨[97], [98]⟩] ((0 + 1) % 4294967296 % List.length [(⟨[97], [98]⟩ : DNSServer)]))[i]? = [(⟨[97], [98]⟩ : DNSServer)][((0 + 1) % 4294967296 % List.length [(⟨[97], [98]⟩ : DNSServer)] + i) % List.length [(⟨[97], [98]⟩ : DNSServer)]]?) ∧
    (∀ r, tryServersFrom ((fun (_ : GoString) (_ : DNSServer) => (Except.ok [[49]] : Except Nat (List GoString))) [100]) (rrOrder [⟨[97], [98]⟩] ((0 + 1) % 4294967296 % List.length [(⟨[97], [98]⟩ : DNSServer)])) none = .ok r ↔
      ∃ k, ∃ hk : k < (rrOrder [⟨[97], [98]⟩] ((0 + 1) % 4294967296 % List.length [(⟨[97], [98]⟩ : DNSServer)])).length,
        (fun (_ : GoString) (_ : DNSServer) => (Except.ok [[49]] : Except Nat (List GoString))) [100] ((rrOrder [⟨[97], [98]⟩] ((0 + 1) % 4294967296 % List.length [(⟨[97], [98]⟩ : DNSServer)])).get ⟨k, hk⟩) = .ok r ∧
        ∀ j, ∀ hj : j < k,
          ∃ e, (fun (_ : GoString) (_ : DNSServer) => (Except.ok [[49]] : Except Nat (List GoString))) [100] ((rrOrder [⟨[97], [98]⟩] ((0 + 1) % 4294967296 % List.length [(⟨[97], [98]⟩ : DNSServer)])).get ⟨j, Nat.lt_trans hj hk⟩) = .error e) :=
  roundRobin_cyclic_order (fun (_ : GoString) (_ : DNSServer) => (Except.ok [[49]] : Except Nat (List GoString))) { registry := [⟨[97], [98]⟩], blacklist := NewBlacklist, cache := some (NewCache 10), serverIndex := 0, useRoundRobin := true } [100] 0 (by decide) (by decide) (by decide) (by decide) (by decide)

/-- **C7.** When a query reaches the attempt loop and every server
attempt fails, the result is the `all DNS servers failed` error wrapping
exactly the error of the last attempted server (all earlier errors are
discarded) — in round-robin mode the last server of the rotated order,
in fallback mode the last server in registry order. -/
theorem upstream_exhausted_last_error {E : Type}
    (resolve : GoString → DNSServer → Except E (List GoString))
    (p : Proxy) (domain : GoString) (servers : List DNSServer)
    (hne : servers ≠ [])
    (hfail : ∀ s ∈ servers, ∃ e, resolve domain s = .error e) :
    (∀ srv e,
      (rrOrder servers
        ((p.serverIndex + 1) % 4294967296 % servers.length)).getLast?
          = some srv →
      resolve domain srv = .error e →
      (p.lookupRoundRobin resolve domain servers).1
        = .error (.allServersFailed (some e))) ∧
    (∀ srv e, servers.getLast? = some srv → resolve domain srv = .error e →
      Proxy.lookupFallback resolve domain servers
        = .error (.allServersFailed (some e))) := by
  have hM : ¬ servers.length = 0 := by
    simpa [List.length_eq_zero] using hne
  constructor
  · intro srv e hlast herr
    simp only [Proxy.lookupRoundRobin, if_neg hM]
    exact tryServersFrom_all_fail (resolve domain) _ none
      (fun s hs => hfail s (rrOrder_mem servers _ s hs)) srv e hlast herr
  · intro srv e hlast herr
    exact tryServersFrom_all_fail (resolve domain) servers none
      hfail srv e hlast herr

/-- Witness for the exhausted-upstream claim: two servers that fail with
distinct errors (97 and 98); round-robin (cursor 0, so start 1) reports
the error of server 97, fallback the error of server 98. -/
theorem upstream_exhausted_last_error_witness :
    (∀ srv e,
      (rrOrder [⟨[97], [97]⟩, ⟨[98], [98]⟩]
        ((0 + 1) % 4294967296 % List.length [(⟨[97], [97]⟩ : DNSServer), ⟨[98], [98]⟩])).getLast?
          = some srv →
      (fun (_ : GoString) (s : DNSServer) => (Except.error (s.name.headD 0) : Except Nat (List GoString))) [100] srv = .error e →
      (Proxy.lookupRoundRobin { registry := [], blacklist := NewBlacklist, cache := none, serverIndex := 0, useRoundRobin := true }
        (fun (_ : GoString) (s : DNSServer) => (Except.error (s.name.headD 0) : Except Nat (List GoString)))
        [100] [⟨[97], [97]⟩, ⟨[98], [98]⟩]).1
        = .error (.allServersFailed (some e))) ∧
    (∀ srv e, ([(⟨[97], [97]⟩ : DNSServer), ⟨[98], [98]⟩]).getLast? = some srv →
      (fun (_ : GoString) (s : DNSServer) => (Except.error (s.name.headD 0) : Except Nat (List GoString))) [100] srv = .error e →
      Proxy.lookupFallback
        (fun (_ : GoString) (s : DNSServer) => (Except.error (s.name.headD 0) : Except Nat (List GoString)))
        [100] [⟨[97], [97]⟩, ⟨[98], [98]⟩]
        = .error (.allServersFailed (some e))) :=
  upstream_exhausted_last_error
    (fun (_ : GoString) (s : DNSServer) => (Except.error (s.name.headD 0) : Except Nat (List GoString)))
    { registry := [], blacklist := NewBlacklist, cache := none, serverIndex := 0, useRoundRobin := true }
    [100] [⟨[97], [97]⟩, ⟨[98], [98]⟩] (by decide)
    (fun s _ => ⟨s.name.headD 0, rfl⟩)

theorem lookup_miss_fst {E : Type}
    (resolve : GoString → DNSServer → Except E (List GoString))
    (p : Proxy) (domain : GoString) (now : Nat)
    (h1 : domain ≠ []) (h2 : p.blacklist.IsBlocked domain = false)
    (h3 : p.cacheLookup domain now = none)
    (hM : ¬ p.registry.length = 0) :
    (p.Lookup resolve domain now).1
      = (if p.useRoundRobin
          then (p.lookupRoundRobin resolve domain p.registry).1
          else Proxy.lookupFallback resolve domain p.registry) := by
  cases hrr : p.useRoundRobin with
  | true =>
    rcases hpr : p.lookupRoundRobin resolve domain p.registry with ⟨res, p1⟩
    cases res with
    | ok ips =>
      simp only [Proxy.Lookup, if_neg h1, h2, Bool.false_eq_true, if_false,
        h3, if_neg hM, hrr, if_true, hpr]
      cases hc : p1.cache with
      | some c =>
        by_cases hlen : ips.length > 0
        · simp [hc, hlen]
        · simp [hc, hlen]
      | none => simp [hc]
    | error e =>
      simp only [Proxy.Lookup, if_neg h1, h2, Bool.false_eq_true, if_false,
        h3, if_neg hM, hrr, if_true, hpr]
  | false =>
    cases hres : Proxy.lookupFallback resolve domain p.registry with
    | ok ips =>
      simp only [Proxy.Lookup, if_neg h1, h2, Bool.false_eq_true, if_false,
        h3, if_neg hM, hrr, Bool.false_eq_true, if_false, hres]
      cases hc : p.cache with
      | some c =>
        by_cases hlen : ips.length > 0
        · simp [hc, hlen]
        · simp [hc, hlen]
      | none => simp [hc]
    | error e =>
      simp only [Proxy.Lookup, if_neg h1, h2, Bool.false_eq_true, if_false,
        h3, if_neg hM, hrr, Bool.false_eq_true, if_false, hres]

/-- **C4 (counterexample).** The query mode is not determined by cache
attachment: after `SetRoundRobin(false)` on a proxy built by
`NewProxyWithCache`, the cache is still attached, yet `Lookup` uses the
fallback order (it answers with the first server's result `[[97]]`,
while the round-robin helper would answer with the second server's
result `[[98]]`). -/
theorem mode_cache_counterexample :
    ((NewProxyWithCache [⟨[97], [97]⟩, ⟨[98], [98]⟩] NewBlacklist (NewCache 10)).SetRoundRobin false).cache ≠ none ∧
    (Proxy.Lookup ((NewProxyWithCache [⟨[97], [97]⟩, ⟨[98], [98]⟩] NewBlacklist (NewCache 10)).SetRoundRobin false)
      (fun (_ : GoString) (s : DNSServer) => (Except.ok [s.name] : Except Nat (List GoString))) [100] 0).1
      = .ok [[97]] ∧
    (Proxy.lookupRoundRobin ((NewProxyWithCache [⟨[97], [97]⟩, ⟨[98], [98]⟩] NewBlacklist (NewCache 10)).SetRoundRobin false)
      (fun (_ : GoString) (s : DNSServer) => (Except.ok [s.name] : Except Nat (List GoString))) [100]
      [⟨[97], [97]⟩, ⟨[98], [98]⟩]).1 = .ok [[98]] ∧
    (Except.ok [[97]] : Except (ProxyError Nat) (List GoString)) ≠ .ok [[98]] :=
  ⟨by decide, rfl, rfl, by intro h; injection h with h; exact absurd h (by decide)⟩

/-- **C4 (amended).** The query mode is selected by the `useRoundRobin`
flag, not by cache attachment: on the upstream path `Lookup` uses the
round-robin helper exactly when the flag is set.  The constructors do
couple the two — `NewProxy` attaches no cache and clears the flag,
`NewProxyWithCache` attaches the cache and sets it — but
`SetRoundRobin` changes the flag while leaving the cache alone, so cache
attachment alone does not determine the mode. -/
theorem mode_selected_by_flag {E : Type}
    (resolve : GoString → DNSServer → Except E (List GoString))
    (p : Proxy) (domain : GoString) (now : Nat)
    (h1 : domain ≠ []) (h2 : p.blacklist.IsBlocked domain = false)
    (h3 : p.cacheLookup domain now = none) (hs : p.registry ≠ []) :
    ((p.Lookup resolve domain now).1
      = (if p.useRoundRobin
          then (p.lookupRoundRobin resolve domain p.registry).1
          else Proxy.lookupFallback resolve domain p.registry)) ∧
    (∀ r bl, (NewProxy r bl).cache = none ∧
      (NewProxy r bl).useRoundRobin = false) ∧
    (∀ r bl c, (NewProxyWithCache r bl c).cache = some c ∧
      (NewProxyWithCache r bl c).useRoundRobin = true) ∧
    (∀ q v, (Proxy.SetRoundRobin q v).useRoundRobin = v ∧
      (Proxy.SetRoundRobin q v).cache = q.cache) :=
  ⟨lookup_miss_fst resolve p domain now h1 h2 h3
      (by simpa [List.length_eq_zero] using hs),
    fun _ _ => ⟨rfl, rfl⟩, fun _ _ _ => ⟨rfl, rfl⟩, fun _ _ => ⟨rfl, rfl⟩⟩

/-- Witness for the amended mode claim, at the counterexample proxy
(cache attached, flag cleared). -/
theorem mode_selected_by_flag_witness :
    ((Proxy.Lookup ((NewProxyWithCache [⟨[97], [97]⟩, ⟨[98], [98]⟩] NewBlacklist (NewCache 10)).SetRoundRobin false)
      (fun (_ : GoString) (s : DNSServer) => (Except.ok [s.name] : Except Nat (List GoString))) [100] 0).1
      = (if ((NewProxyWithCache [⟨[97], [97]⟩, ⟨[98], [98]⟩] NewBlacklist (NewCache 10)).SetRoundRobin false).useRoundRobin
          then (Proxy.lookupRoundRobin ((NewProxyWithCache [⟨[97], [97]⟩, ⟨[98], [98]⟩] NewBlacklist (NewCache 10)).SetRoundRobin false)
            (fun (_ : GoString) (s : DNSServer) => (Except.ok [s.name] : Except Nat (List GoString))) [100]
            ((NewProxyWithCache [⟨[97], [97]⟩, ⟨[98], [98]⟩] NewBlacklist (NewCache 10)).SetRoundRobin false).registry).1
          else Proxy.lookupFallback
            (fun (_ : GoString) (s : DNSServer) => (Except.ok [s.name] : Except Nat (List GoString))) [100]
            ((NewProxyWithCache [⟨[97], [97]⟩, ⟨[98], [98]⟩] NewBlacklist (NewCache 10)).SetRoundRobin false).registry)) ∧
    (∀ r bl, (NewProxy r bl).cache = none ∧
      (NewProxy r bl).useRoundRobin = false) ∧
    (∀ r bl c, (NewProxyWithCache r bl c).cache = some c ∧
      (NewProxyWithCache r bl c).useRoundRobin = true) ∧
    (∀ q v, (Proxy.SetRoundRobin q v).useRoundRobin = v ∧
      (Proxy.SetRoundRobin q v).cache = q.cache) :=
  mode_selected_by_flag
    (fun (_ : GoString) (s : DNSServer) => (Except.ok [s.name] : Except Nat (List GoString)))
    ((NewProxyWithCache [⟨[97], [97]⟩, ⟨[98], [98]⟩] NewBlacklist (NewCache 10)).SetRoundRobin false)
    [100] 0 (by decide) (by decide) (by decide) (by decide)

theorem cacheSet_get_ne (c : Cache) (d1 d2 : GoString) (ips : List GoString)
    (t now : Nat) (h : d1 ≠ d2) :
    (c.Set d1 ips t).Get d2 now = c.Get d2 now := by
  simp only [Cache.Set, Cache.Get, List.find?_cons,
    show ((d1, (⟨ips, t⟩ : CacheEntry)).1 == d2) = false from by simp [h]]
  rw [find?_filter_key_ne c.entries d1 d2 h]

/-- **C10.** A `Lookup` call mutates the cache only when it returns a
successful non-empty result obtained from an upstream server, and then
only at the queried key: either the resulting proxy carries exactly the
original cache (empty-domain error, blocked branch, cache hit, empty
registry, failed upstream, empty result list, or no cache attached), or
the call was an upstream success `ips ≠ []` past the blocked and cache
branches, and the new cache is precisely `Set domain ips now` of the old
one, which agrees with the old cache on every other key.  In particular
the sinkhole answer of the blocked branch is never written to the
cache. -/
theorem lookup_cache_frame {E : Type}
    (resolve : GoString → DNSServer → Except E (List GoString))
    (p : Proxy) (domain : GoString) (now : Nat) :
    (p.Lookup resolve domain now).2.cache = p.cache ∨
    (∃ ips c, (p.Lookup resolve domain now).1 = .ok ips ∧ ips ≠ [] ∧
      p.cache = some c ∧
      (p.Lookup resolve domain now).2.cache = some (c.Set domain ips now) ∧
      domain ≠ [] ∧ p.blacklist.IsBlocked domain = false ∧
      p.cacheLookup domain now = none ∧
      (∀ d2 t2, d2 ≠ domain →
        (c.Set domain ips now).Get d2 t2 = c.Get d2 t2)) := by
  by_cases h1 : domain = []
  · left; simp [Proxy.Lookup, h1]
  cases hb : p.blacklist.IsBlocked domain with
  | true => left; simp [Proxy.Lookup, h1, hb]
  | false =>
  cases h3 : p.cacheLookup domain now with
  | some cached =>
    left; simp [Proxy.Lookup, h1, hb, h3]
  | none =>
  by_cases hM : p.registry.length = 0
  · left; simp [Proxy.Lookup, h1, hb, h3, hM]
  cases hrr : p.useRoundRobin with
  | false =>
    cases hres : Proxy.lookupFallback resolve domain p.registry with
    | error e =>
      left
      simp [Proxy.Lookup, h1, hb, h3, hM, hrr, hres]
    | ok ips =>
      cases hc : p.cache with
      | none =>
        left
        simp [Proxy.Lookup, h1, hb, h3, hM, hrr, hres, hc]
      | some c =>
        by_cases hlen : ips.length > 0
        · right
          refine ⟨ips, c, ?_, ?_, rfl, ?_, h1, rfl, rfl,
            fun d2 t2 hd2 => cacheSet_get_ne c domain d2 ips now t2
              (fun hx => hd2 hx.symm)⟩
          · simp [Proxy.Lookup, h1, hb, h3, hM, hrr, hres, hc, hlen]
          · intro hnil; rw [hnil] at hlen; simp at hlen
          · simp [Proxy.Lookup, h1, hb, h3, hM, hrr, hres, hc, hlen]
        · left
          simp [Proxy.Lookup, h1, hb, h3, hM, hrr, hres, hc, hlen]
  | true =>
    rcases hpr : p.lookupRoundRobin resolve domain p.registry with ⟨res, p1⟩
    have hpr' := hpr
    simp only [Proxy.lookupRoundRobin, if_neg hM] at hpr'
    have hp1 : p1 = { p with serverIndex := (p.serverIndex + 1) % 4294967296 } :=
      (Prod.mk.injEq _ _ _ _ |>.mp hpr').2.symm
    have hp1cache : p1.cache = p.cache := by rw [hp1]
    cases res with
    | error e =>
      left
      simp only [Proxy.Lookup, if_neg h1, hb, Bool.false_eq_true, if_false,
        h3, if_neg hM, hrr, if_true, hpr]
      exact hp1cache
    | ok ips =>
      cases hc : p1.cache with
      | none =>
        left
        simp only [Proxy.Lookup, if_neg h1, hb, Bool.false_eq_true, if_false,
          h3, if_neg hM, hrr, if_true, hpr, hc]
        rw [← hc, hp1cache]
      | some c =>
        by_cases hlen : ips.length > 0
        · right
          refine ⟨ips, c, ?_, ?_, by rw [← hp1cache, hc], ?_, h1, rfl, rfl,
            fun d2 t2 hd2 => cacheSet_get_ne c domain d2 ips now t2
              (fun hx => hd2 hx.symm)⟩
          · simp [Proxy.Lookup, h1, hb, h3, hM, hrr, hpr, hc, hlen]
          · intro hnil; rw [hnil] at hlen; simp at hlen
          · simp [Proxy.Lookup, h1, hb, h3, hM, hrr, hpr, hc, hlen]
        · left
          simp only [Proxy.Lookup, if_neg h1, hb, Bool.false_eq_true, if_false,
            h3, if_neg hM, hrr, if_true, hpr, hc]
          simp only [gt_iff_lt, hlen, if_false]
          exact hp1cache

/-- The per-line acceptance condition of the hosts loader: the parse
yields a candidate (the line is not blank, not a comment, has at least
two fields, and the second field contains a dot) and that candidate
passes `AddDomain` validation (its normalized form is not the bare
wildcard marker). -/
def validHostsLine (line : GoString) : Bool :=
  parseHostsLine line ≠ [] && goNormalize (parseHostsLine line) ≠ [42, 46]

theorem loadHostsLines_spec (lines : List GoString) : ∀ b : Blacklist,
    (loadHostsLines b lines).1 = (lines.filter validHostsLine).length ∧
    (loadHostsLines b lines).2 = (lines.filter validHostsLine).foldl
      (fun acc line => (acc.AddDomain (parseHostsLine line)).2) b := by
  induction lines with
  | nil => intro b; simp [loadHostsLines]
  | cons line rest ih =>
    intro b
    by_cases hp : parseHostsLine line = []
    · have hv : validHostsLine line = false := by simp [validHostsLine, hp]
      simpa [loadHostsLines, hp, List.filter_cons, hv] using ih b
    · by_cases hn : goNormalize (parseHostsLine line) = [42, 46]
      · have hv : validHostsLine line = false := by
          simp [validHostsLine, hp, hn]
        have herr : (b.AddDomain (parseHostsLine line)).1 ≠ none :=
          (addDomain_err_iff b _).mpr (Or.inr hn)
        have hunch := addDomain_err_unchanged b _ herr
        rcases hadd : b.AddDomain (parseHostsLine line) with ⟨err, b1⟩
        cases err with
        | none => rw [hadd] at herr; simp at herr
        | some e =>
          have hb1 : b1 = b := by rw [hadd] at hunch; exact hunch
          subst hb1
          simpa [loadHostsLines, hp, hadd, List.filter_cons, hv] using ih b1
      · have hv : validHostsLine line = true := by
          simp [validHostsLine, hp, hn]
        rcases hadd : b.AddDomain (parseHostsLine line) with ⟨err, b1⟩
        cases err with
        | some e =>
          have herr : (b.AddDomain (parseHostsLine line)).1 ≠ none := by
            rw [hadd]; simp
          rcases (addDomain_err_iff b _).mp herr with h | h
          · exact absurd h hp
          · exact absurd h hn
        | none =>
          have hstep : (b.AddDomain (parseHostsLine line)).2 = b1 := by
            rw [hadd]
          constructor
          · simp only [loadHostsLines, if_neg hp, hadd, List.filter_cons, hv,
              if_true, List.length_cons]
            exact congrArg (· + 1) (ih b1).1
          · simp only [loadHostsLines, if_neg hp, hadd, List.filter_cons, hv,
              if_true, List.foldl_cons, hstep]
            exact (ih b1).2

/-- **C8.** Bulk ingestion over line-oriented hosts text never aborts:
each line that is blank after trimming, starts with `#`, has fewer than
two fields, whose second field has no dot, or whose second field fails
`AddDomain` validation is skipped; every other line's second field is
added as a rule (the final blacklist is the fold of `AddDomain` over
exactly the accepted lines), and the returned count is the number of
accepted lines. -/
theorem hosts_ingestion_count (b : Blacklist) (content : GoString) :
    (b.LoadFromHostsContent content).1
      = ((goSplitNewline content).filter validHostsLine).length ∧
    (b.LoadFromHostsContent content).2
      = ((goSplitNewline content).filter validHostsLine).foldl
          (fun acc line => (acc.AddDomain (parseHostsLine line)).2) b :=
  loadHostsLines_spec (goSplitNewline content) b
